import Mathlib

/-!
Shallow embedding of `src/timeshap/plot/feature_level.py`.

The two functions `plot_feat_barplot` and `plot_global_feat` are modelled
as pure functions on lists of rows.  Pandas data frames become lists of
records, Python dicts become association lists (insertion order
preserved, assignment overwrites in place), float values become `Rat`,
and a raised exception (`KeyError` from a missing column or dict key,
`IndexError` from `iloc`) becomes `none` in an `Option` result.

Python aliasing is made explicit: each embedded function returns, besides
the table handed to the chart renderer, the state of the caller-supplied
`plot_features` dict after the call, because `plot_feat_barplot` writes
into the caller's dict while `plot_global_feat` works on a deep copy.

`plot_global_feat` wraps its per-group worker in `multi_plot_wrapper`
(defined outside this file's source, in `timeshap.plot.utils`); the
claims below are all about the per-group worker `plot`, which the
wrapper applies to each plot group independently, so the wrapper is not
modelled.

Pandas `groupby` emits group keys in sorted order and `sort_values` uses
an unstable sort; the embedding keeps group keys in first-appearance
order and uses a stable sort for `sort_values`.  No theorem below
depends on the order of equal sort keys or on the group-key order.
-/

namespace Timeshap

/-- Rational addition written through `mkRat`, so that concrete values
reduce inside the kernel (`Rat.add` is irreducible); `ratAdd_eq_add`
below proves it equal to `+`. -/
def ratAdd (a b : Rat) : Rat := mkRat (a.num * b.den + b.num * a.den) (a.den * b.den)

/-- Sum of a list of rationals via `ratAdd`; equal to `List.sum` by
`ratSum_eq_sum` below. -/
def ratSum : List Rat → Rat
  | [] => 0
  | q :: rest => ratAdd q (ratSum rest)

/-- Division of a rational by a natural number via `mkRat`; equal to `/`
by `ratDivNat_eq_div` below. -/
def ratDivNat (q : Rat) (n : Nat) : Rat := mkRat q.num (q.den * n)

/-- A Python dict from strings to strings, as an association list in
insertion order. -/
abbrev Dict := List (String × String)

/-- `d[k]` as a total lookup: `none` models a `KeyError`. -/
def dictGet? (d : Dict) (k : String) : Option String :=
  (d.find? (fun p => p.1 = k)).map (fun p => p.2)

/-- `d[k] = v`: overwrite in place if the key exists (keys of a Python
dict are unique, so replacing the first occurrence suffices), else append
at the end, preserving insertion order. -/
def dictInsert : Dict → String → String → Dict
  | [], k, v => [(k, v)]
  | p :: rest, k, v => if p.1 = k then (k, v) :: rest else p :: dictInsert rest k v

/-- Truthiness of an optional dict (`if plot_features:`): `None` and the
empty dict are falsy. -/
def dictTruthy : Option Dict → Bool
  | none => false
  | some d => !d.isEmpty

/-- The display-name map assigns distinct labels to distinct keys (the
natural reading of a display map; lookups of two entries agree only on
the same key). -/
abbrev dictInj (d : Dict) : Prop :=
  ∀ p ∈ d, ∀ q ∈ d, dictGet? d p.1 = dictGet? d q.1 → p.1 = q.1

/-- One row of the local-explanation data frame `feat_data`.  The frame
always has the columns `Feature` and `Shapley Value`; the column
`Explanation`, which line 51 of the source reads, is modelled per row as
an `Option` (`none` = the column is absent, so reading it raises
`KeyError`). -/
structure FeatRow where
  feature : String
  shapley : Rat
  explanation : Option Rat
deriving DecidableEq

/-- `feat_data['Feature'].apply(lambda x: plot_features[x])`: rename every
row's feature, `none` models the `KeyError` raised when some feature is
missing from the dict. -/
def renameRows (pf : Dict) (rows : List FeatRow) : Option (List FeatRow) :=
  if rows.all (fun r => (dictGet? pf r.feature).isSome) then
    some (rows.map (fun r => { r with feature := (dictGet? pf r.feature).getD r.feature }))
  else
    none

/-- Line 41 of the source: `plot_features['Pruned Events'] = 'Pruned Events'`,
executed on the caller's dict object itself (no copy is taken in
`plot_feat_barplot`). -/
def augmentLocal (pf : Dict) : Dict :=
  dictInsert pf "Pruned Events" "Pruned Events"

/-- The descending order on rows used by
`feat_data.sort_values('sort_col', ascending=False)`, where
`sort_col = abs(value)`. -/
def descAbsShap : FeatRow → FeatRow → Prop := fun a b => |b.shapley| ≤ |a.shapley|

instance : DecidableRel descAbsShap := fun a b =>
  inferInstanceAs (Decidable (|b.shapley| ≤ |a.shapley|))

/-- Lines 48-51 of the source.  When the row count exceeds `top_x_feats`:
sort by `sort_col` descending, read `sorted_df.iloc[4]['Shapley Value']`
(`none` = `IndexError` when fewer than five rows exist), take its absolute
value as the cutoff, then filter on the column `Explanation` (`none` =
`KeyError` when that column is absent from the frame). -/
def filterStage (rows : List FeatRow) (top_x_feats : Option Nat) : Option (List FeatRow) :=
  match top_x_feats with
  | none => some rows
  | some k =>
    if rows.length > k then
      match (List.insertionSort descAbsShap rows).get? 4 with
      | none => none
      | some r4 =>
        let cutoff := |r4.shapley|
        if rows.all (fun r => r.explanation.isSome) then
          some (rows.filter (fun r =>
            decide (r.explanation.getD 0 ≥ cutoff ∨ r.explanation.getD 0 ≤ -cutoff)))
        else
          none
    else
      some rows

/-- Outcome of `plot_feat_barplot`: the caller's `plot_features` dict as it
stands after the call, and the retained table handed to the renderer
(`none` = an exception was raised). -/
structure BarplotOut where
  callerMap : Option Dict
  rows : Option (List FeatRow)
deriving DecidableEq

/-- `plot_feat_barplot` (lines 22-69 of the source), up to the point where
the retained frame is handed to the chart renderer.  Note that the
relabelling of lines 40-44 runs before the top-K filtering of lines
48-51, and that line 41 mutates the caller's dict in place. -/
def plot_feat_barplot (rows : List FeatRow) (top_x_feats : Option Nat)
    (plot_features : Option Dict) : BarplotOut :=
  if dictTruthy plot_features then
    let pf := augmentLocal (plot_features.getD [])
    { callerMap := some pf
      rows := match renameRows pf rows with
              | none => none
              | some rows2 => filterStage rows2 top_x_feats }
  else
    { callerMap := plot_features, rows := filterStage rows top_x_feats }

/-! ### The global plot -/

/-- One row of the global `feat_data`: columns `Feature` and
`Shapley Value`. -/
structure GIn where
  feature : String
  value : Rat
deriving DecidableEq

/-- One row of the long-form table handed to the renderer: the
`Shapley Value` column is `none` for the overflow marker's mean row
(Python `None`), and `type` is the discriminator added on line 119. -/
structure LongRow where
  feature : String
  value : Option Rat
  type : String
deriving DecidableEq

/-- A value inside the `plot_parameters` dict: a number or an axis-bounds
list. -/
inductive PVal
  | num (q : Rat)
  | lims (l : List Rat)
deriving DecidableEq

/-- The `plot_parameters` dict. -/
abbrev PDict := List (String × PVal)

/-- `d.get(k, default)`. -/
def pdictGetD (d : PDict) (k : String) (dflt : PVal) : PVal :=
  ((d.find? (fun p => p.1 = k)).map (fun p => p.2)).getD dflt

/-- The four chart-layout values read on lines 149-154 of the source.  The
keys actually read are `height`, `width`, `axis_lim` and `FontSize`. -/
structure ChartConfig where
  height : PVal
  width : PVal
  axis_lims : PVal
  fontsize : PVal
deriving DecidableEq

/-- Lines 149-154 of the source: `plot_parameters` defaults to the empty
dict, then each value is read with `.get` and a default. -/
def chartConfig (plot_parameters : Option PDict) : ChartConfig :=
  let d := plot_parameters.getD []
  { height := pdictGetD d "height" (.num 280)
    width := pdictGetD d "width" (.num 288)
    axis_lims := pdictGetD d "axis_lim" (.lims [mkRat (-1) 5, mkRat 3 5])
    fontsize := pdictGetD d "FontSize" (.num 13) }

/-- The distinct strings of a list, in first-appearance order. -/
def distinctKeys : List String → List String
  | [] => []
  | x :: xs => x :: (distinctKeys xs).filter (fun y => y ≠ x)

/-- The distinct features of the frame: the group keys of
`feat_data.groupby('Feature')`.  Pandas emits them sorted
lexicographically; the embedding keeps them in first-appearance order
(string order does not reduce in the kernel).  The key order only
permutes the mean rows of the long-form table and the order of equal
means in the display sort, neither of which any property below depends
on. -/
def groupKeys (rows : List GIn) : List String :=
  distinctKeys (rows.map (fun r => r.feature))

/-- The mean of `Shapley Value` over the rows of one feature (sum of the
values divided by their count; see `meanOf_eq_div`). -/
def meanOf (rows : List GIn) (f : String) : Rat :=
  let vs := (rows.filter (fun r => r.feature = f)).map (fun r => r.value)
  ratDivNat (ratSum vs) vs.length

/-- Line 103 of the source:
`avg_df = feat_data.groupby('Feature').mean()['Shapley Value']`, as the
list of (feature, mean) pairs in group-key order. -/
def avgDf (rows : List GIn) : List (String × Rat) :=
  (groupKeys rows).map (fun f => (f, meanOf rows f))

/-- `series.iloc[i]` with Python index semantics (a negative index counts
from the end); `none` models an `IndexError`. -/
def ilocRat (l : List Rat) (i : Int) : Option Rat :=
  if 0 ≤ i then l.get? i.toNat
  else if (-i).toNat ≤ l.length then l.get? (l.length - (-i).toNat)
  else none

/-- `avg_df.abs().sort_values(ascending=False)` as a list of values. -/
def sortedAbsDesc (avg : List (String × Rat)) : List Rat :=
  List.insertionSort (fun a b => b ≤ a) (avg.map (fun p => |p.2|))

/-- Lines 104-106 of the source: resolve the effective threshold.  Outer
`none` models the `IndexError` of `iloc`; the inner option is the Python
`threshold` variable (`none` = Python `None`). -/
def resolveThreshold (threshold : Option Rat) (avg : List (String × Rat))
    (top_x_feats : Nat) : Option (Option Rat) :=
  match threshold with
  | some t => some (some t)
  | none =>
    if avg.length ≥ top_x_feats then
      match ilocRat (sortedAbsDesc avg) ((top_x_feats : Int) - 1) with
      | some t => some (some t)
      | none => none
    else
      some none

/-- Truthiness of the resolved threshold (`if threshold:`): `None` and
`0.0` are falsy. -/
def thTruthy : Option Rat → Bool
  | none => false
  | some q => decide (q ≠ 0)

/-- Lines 107-108 of the source: when the threshold is truthy, keep only
the features whose mean is `<= -threshold` or `>= threshold`. -/
def avgAfterFilter (rows : List GIn) (top_x_feats : Nat) (threshold : Option Rat) :
    Option (List (String × Rat)) :=
  match resolveThreshold threshold (avgDf rows) top_x_feats with
  | none => none
  | some th =>
    if thTruthy th then
      some ((avgDf rows).filter (fun p =>
        decide (p.2 ≤ -(th.getD 0) ∨ th.getD 0 ≤ p.2)))
    else
      some (avgDf rows)

/-- Line 109 of the source: restrict the raw rows to the surviving
features. -/
def keptRows (rows : List GIn) (top_x_feats : Nat) (threshold : Option Rat) :
    Option (List GIn) :=
  match avgAfterFilter rows top_x_feats threshold with
  | none => none
  | some avg1 => some (rows.filter (fun r => (avg1.map (fun p => p.1)).contains r.feature))

/-- Lines 111-117 of the source: when the threshold is truthy, append the
overflow entry `('(...)', 0)` to the means and the raw sentinel row
`('(...)', -0.6)` to the frame. -/
def avg2Of (rows : List GIn) (top_x_feats : Nat) (threshold : Option Rat) :
    Option (List (String × Rat)) :=
  match resolveThreshold threshold (avgDf rows) top_x_feats, avgAfterFilter rows top_x_feats threshold with
  | some th, some avg1 => some (if thTruthy th then avg1 ++ [("(...)", 0)] else avg1)
  | _, _ => none

/-- The raw frame after the optional overflow row of lines 114-117. -/
def rawRowsOf (rows : List GIn) (top_x_feats : Nat) (threshold : Option Rat) :
    Option (List GIn) :=
  match resolveThreshold threshold (avgDf rows) top_x_feats, keptRows rows top_x_feats threshold with
  | some th, some kept => some (if thTruthy th then kept ++ [⟨"(...)", mkRat (-3) 5⟩] else kept)
  | _, _ => none

/-- Line 119 of the source: tag a raw row `type='Shapley Value'`. -/
def tagSV (r : GIn) : LongRow := ⟨r.feature, some r.value, "Shapley Value"⟩

/-- Lines 121-139 of the source: the `type='Mean'` row appended for one
entry of the means series; the overflow marker gets value `None`. -/
def meanRow (p : String × Rat) : LongRow :=
  if p.1 = "(...)" then ⟨p.1, none, "Mean"⟩ else ⟨p.1, some p.2, "Mean"⟩

/-- Lines 119-139 of the source: tag every raw row `type='Shapley Value'`,
then append one `type='Mean'` row per entry of the means series. -/
def buildTable (rows : List GIn) (top_x_feats : Nat) (threshold : Option Rat) :
    Option (List LongRow) :=
  match rawRowsOf rows top_x_feats threshold, avg2Of rows top_x_feats threshold with
  | some raw, some avg2 => some (raw.map tagSV ++ avg2.map meanRow)
  | _, _ => none

/-- The descending-by-mean order of
`avg_df.sort_values(ascending=False)` on line 141. -/
def descByVal : (String × Rat) → (String × Rat) → Prop := fun a b => b.2 ≤ a.2

instance : DecidableRel descByVal := fun a b => inferInstanceAs (Decidable (b.2 ≤ a.2))

instance : IsTotal (String × Rat) descByVal := ⟨fun a b => le_total b.2 a.2⟩

instance : IsTrans (String × Rat) descByVal := ⟨fun _ _ _ hab hbc => le_trans hbc hab⟩

/-- Line 141 of the source: the means series (overflow entry included)
sorted descending by value. -/
def sortPairsOf (rows : List GIn) (top_x_feats : Nat) (threshold : Option Rat) :
    Option (List (String × Rat)) :=
  match avg2Of rows top_x_feats threshold with
  | none => none
  | some avg2 => some (List.insertionSort descByVal avg2)

/-- `sort_features = list(avg_df.sort_values(ascending=False).index)`. -/
def sortFeaturesOf (rows : List GIn) (top_x_feats : Nat) (threshold : Option Rat) :
    Option (List String) :=
  (sortPairsOf rows top_x_feats threshold).map (fun l => l.map (fun p => p.1))

/-- Lines 143-145 of the source: deep-copy the display map and add the two
synthetic marker entries. -/
def augGlobal (pf : Dict) : Dict :=
  dictInsert (dictInsert pf "Pruned Events" "Pruned Events") "(...)" "(...)"

/-- Line 146: rename the `Feature` column of the long-form table (`none` =
`KeyError`). -/
def renameLong (pf : Dict) (t : List LongRow) : Option (List LongRow) :=
  if t.all (fun r => (dictGet? pf r.feature).isSome) then
    some (t.map (fun r => { r with feature := (dictGet? pf r.feature).getD r.feature }))
  else
    none

/-- Line 147: rename the precomputed sort order (`none` = `KeyError`). -/
def renameSort (pf : Dict) (sf : List String) : Option (List String) :=
  if sf.all (fun f => (dictGet? pf f).isSome) then
    some (sf.map (fun f => (dictGet? pf f).getD f))
  else
    none

/-- The pairing invariant of the long-form table: every feature that
appears in a `Shapley Value` row has exactly one `Mean` row. -/
def meanPaired (t : List LongRow) : Prop :=
  ∀ f, (∃ r ∈ t, r.feature = f ∧ r.type = "Shapley Value") →
    (t.filter (fun r => decide (r.feature = f ∧ r.type = "Mean"))).length = 1

/-- What the per-group worker hands to the chart renderer. -/
structure GlobalResult where
  rows : List LongRow
  sort_features : List String
  config : ChartConfig
deriving DecidableEq

/-- Outcome of the per-group worker of `plot_global_feat`: the caller's
`plot_features` dict after the call, and the renderer input (`none` = an
exception was raised). -/
structure GlobalOut where
  callerMap : Option Dict
  result : Option GlobalResult
deriving DecidableEq

/-- The per-group worker `plot` of `plot_global_feat` (lines 102-177 of
the source), up to the point where the prepared long-form table, the sort
order and the layout values are handed to the chart renderer.  Because
line 143 deep-copies `plot_features`, the caller's dict is returned
unchanged. -/
def plotGlobalCore (rows : List GIn) (top_x_feats : Nat) (threshold : Option Rat)
    (plot_features : Option Dict) (plot_parameters : Option PDict) : GlobalOut :=
  { callerMap := plot_features
    result :=
      match buildTable rows top_x_feats threshold,
          sortFeaturesOf rows top_x_feats threshold with
      | some table, some sf =>
        if dictTruthy plot_features then
          let pf := augGlobal (plot_features.getD [])
          match renameLong pf table, renameSort pf sf with
          | some table2, some sf2 =>
            some { rows := table2, sort_features := sf2
                   config := chartConfig plot_parameters }
          | _, _ => none
        else
          some { rows := table, sort_features := sf
                 config := chartConfig plot_parameters }
      | _, _ => none }

/-! ### Concrete inputs used by witnesses and counterexamples -/

/-- A local frame with 16 rows (more than the default `top_x_feats` of
15), with only the documented columns `Feature` and `Shapley Value` (the
column `Explanation` is absent). -/
def localRows16 : List FeatRow :=
  [⟨"f01", 1, none⟩, ⟨"f02", mkRat (-9) 10, none⟩, ⟨"f03", mkRat 8 10, none⟩,
   ⟨"f04", mkRat (-7) 10, none⟩, ⟨"f05", mkRat 6 10, none⟩, ⟨"f06", mkRat (-5) 10, none⟩,
   ⟨"f07", mkRat 4 10, none⟩, ⟨"f08", mkRat (-3) 10, none⟩, ⟨"f09", mkRat 2 10, none⟩,
   ⟨"f10", mkRat (-1) 10, none⟩, ⟨"f11", mkRat 9 100, none⟩, ⟨"f12", mkRat (-8) 100, none⟩,
   ⟨"f13", mkRat 7 100, none⟩, ⟨"f14", mkRat (-6) 100, none⟩, ⟨"f15", mkRat 5 100, none⟩,
   ⟨"f16", mkRat (-4) 100, none⟩]

/-- The global frame of the spec's worked example: per-feature means
`A: 0.5, B: -0.4, C: 0.1, D: 0.05`, used with `top_x_feats = 2`. -/
def gRows : List GIn :=
  [⟨"A", mkRat 1 2⟩, ⟨"B", mkRat (-2) 5⟩, ⟨"C", mkRat 1 10⟩, ⟨"D", mkRat 1 20⟩]

/-- A global frame whose computed threshold is `0.0`: with
`top_x_feats = 2` the second-largest absolute mean is `0`. -/
def zeroRows : List GIn := [⟨"A", mkRat 1 10⟩, ⟨"B", 0⟩, ⟨"C", 0⟩]

/-- The long-form table the embedding builds from `gRows` with
`top_x_feats = 2` and no explicit threshold. -/
def gTable : List LongRow :=
  [⟨"A", some (mkRat 1 2), "Shapley Value"⟩, ⟨"B", some (mkRat (-2) 5), "Shapley Value"⟩,
   ⟨"(...)", some (mkRat (-3) 5), "Shapley Value"⟩,
   ⟨"A", some (mkRat 1 2), "Mean"⟩, ⟨"B", some (mkRat (-2) 5), "Mean"⟩,
   ⟨"(...)", none, "Mean"⟩]

/-- What the worked example renders with the display map
`{A: a, B: b}`: the table of `gTable` relabelled, its sort order
relabelled, and the default layout. -/
def gResR : GlobalResult :=
  { rows :=
      [⟨"a", some (mkRat 1 2), "Shapley Value"⟩, ⟨"b", some (mkRat (-2) 5), "Shapley Value"⟩,
       ⟨"(...)", some (mkRat (-3) 5), "Shapley Value"⟩,
       ⟨"a", some (mkRat 1 2), "Mean"⟩, ⟨"b", some (mkRat (-2) 5), "Mean"⟩,
       ⟨"(...)", none, "Mean"⟩]
    sort_features := ["a", "(...)", "b"]
    config := chartConfig none }

/-! ### The `mkRat`-coded arithmetic agrees with the ordinary one -/

theorem ratAdd_eq_add (a b : Rat) : ratAdd a b = a + b := by
  unfold ratAdd
  rw [Rat.mkRat_eq_div]
  have ha : ((a.den : Rat)) ≠ 0 := by positivity
  have hb : ((b.den : Rat)) ≠ 0 := by positivity
  conv_rhs => rw [← Rat.num_div_den a, ← Rat.num_div_den b]
  rw [div_add_div _ _ ha hb]
  push_cast
  ring_nf

theorem ratSum_eq_sum (l : List Rat) : ratSum l = l.sum := by
  induction l with
  | nil => rfl
  | cons q rest ih => rw [ratSum, ratAdd_eq_add, ih, List.sum_cons]

theorem ratDivNat_eq_div (q : Rat) (n : Nat) : ratDivNat q n = q / (n : Rat) := by
  unfold ratDivNat
  rw [Rat.mkRat_eq_div]
  push_cast
  rw [← div_div, Rat.num_div_den]

/-- `meanOf` is the arithmetic mean of the feature's values, as
`DataFrame.groupby(...).mean()` computes it. -/
theorem meanOf_eq_div (rows : List GIn) (f : String) :
    meanOf rows f =
      ((rows.filter (fun r => r.feature = f)).map (fun r => r.value)).sum /
        (((rows.filter (fun r => r.feature = f)).map (fun r => r.value)).length : Rat) := by
  unfold meanOf
  rw [ratDivNat_eq_div, ratSum_eq_sum]

/-! ### Dictionary lemmas -/

theorem dictGet?_insert_self (d : Dict) (k v : String) :
    dictGet? (dictInsert d k v) k = some v := by
  induction d with
  | nil => simp [dictInsert, dictGet?, List.find?]
  | cons p rest ih =>
    by_cases h : p.1 = k
    · simp [dictInsert, dictGet?, h, List.find?]
    · simpa [dictInsert, dictGet?, h, List.find?] using ih

theorem dictGet?_insert_ne (d : Dict) (k v k' : String) (h : k' ≠ k) :
    dictGet? (dictInsert d k v) k' = dictGet? d k' := by
  have h' : ¬ (k = k') := fun he => h he.symm
  induction d with
  | nil => simp [dictInsert, dictGet?, List.find?, h']
  | cons p rest ih =>
    by_cases hp : p.1 = k
    · simp [dictInsert, dictGet?, List.find?, hp, h']
    · by_cases hp' : p.1 = k'
      · simp [dictInsert, dictGet?, List.find?, hp, hp', h]
      · simpa [dictInsert, dictGet?, List.find?, hp, hp', h] using ih

theorem renameRows_eq_none_iff (pf : Dict) (rows : List FeatRow) :
    renameRows pf rows = none ↔ ∃ r ∈ rows, dictGet? pf r.feature = none := by
  unfold renameRows
  by_cases h : rows.all (fun r => (dictGet? pf r.feature).isSome)
  · rw [if_pos h]
    simp only [List.all_eq_true] at h
    constructor
    · intro hc; exact absurd hc (by simp)
    · rintro ⟨r, hr, hn⟩
      exact absurd (h r hr) (by simp [hn])
  · rw [if_neg h]
    simp only [List.all_eq_true, not_forall] at h
    constructor
    · intro _
      rcases h with ⟨r, hr, hn⟩
      exact ⟨r, hr, by simpa [Option.isSome_iff_ne_none, not_not] using hn⟩
    · intro _; rfl

theorem renameLong_eq_none_iff (pf : Dict) (t : List LongRow) :
    renameLong pf t = none ↔ ∃ r ∈ t, dictGet? pf r.feature = none := by
  unfold renameLong
  by_cases h : t.all (fun r => (dictGet? pf r.feature).isSome)
  · rw [if_pos h]
    simp only [List.all_eq_true] at h
    constructor
    · intro hc; exact absurd hc (by simp)
    · rintro ⟨r, hr, hn⟩
      exact absurd (h r hr) (by simp [hn])
  · rw [if_neg h]
    simp only [List.all_eq_true, not_forall] at h
    constructor
    · intro _
      rcases h with ⟨r, hr, hn⟩
      exact ⟨r, hr, by simpa [Option.isSome_iff_ne_none, not_not] using hn⟩
    · intro _; rfl

/-! ### Group-key lemmas -/

theorem distinctKeys_nodup (l : List String) : (distinctKeys l).Nodup := by
  induction l with
  | nil => simp [distinctKeys]
  | cons x xs ih =>
    rw [distinctKeys, List.nodup_cons]
    refine ⟨?_, List.Nodup.filter _ ih⟩
    intro hmem
    have hp := List.of_mem_filter hmem
    simp at hp

theorem mem_distinctKeys {l : List String} {y : String} :
    y ∈ distinctKeys l ↔ y ∈ l := by
  induction l with
  | nil => simp [distinctKeys]
  | cons x xs ih =>
    by_cases hyx : y = x
    · subst hyx; simp [distinctKeys]
    · simp [distinctKeys, hyx, List.mem_filter, ih]

theorem groupKeys_nodup (rows : List GIn) : (groupKeys rows).Nodup :=
  distinctKeys_nodup _

theorem mem_groupKeys {rows : List GIn} {f : String} :
    f ∈ groupKeys rows ↔ f ∈ rows.map (fun r => r.feature) :=
  mem_distinctKeys

theorem map_fst_pairUp (g : String → Rat) (l : List String) :
    (l.map (fun f => (f, g f))).map (fun p => p.1) = l := by
  induction l with
  | nil => rfl
  | cons x xs ih => simp only [List.map_cons, ih]

theorem avgDf_keys (rows : List GIn) :
    (avgDf rows).map (fun p => p.1) = groupKeys rows :=
  map_fst_pairUp _ _

theorem eq_of_mem_keyed_nodup {l : List (String × Rat)}
    (h : (l.map (fun p => p.1)).Nodup) {p q : String × Rat}
    (hp : p ∈ l) (hq : q ∈ l) (he : p.1 = q.1) : p = q := by
  induction l with
  | nil => cases hp
  | cons a rest ih =>
    rw [List.map_cons, List.nodup_cons] at h
    rcases List.mem_cons.mp hp with rfl | hp' <;>
      rcases List.mem_cons.mp hq with rfl | hq'
    · rfl
    · exact absurd (he ▸ List.mem_map_of_mem (fun p => p.1) hq') h.1
    · exact absurd (he ▸ List.mem_map_of_mem (fun p => p.1) hp') h.1
    · exact ih h.2 hp' hq'

/-! ### Stage lemmas for the global plot -/

theorem resolveThreshold_isSome (th0 : Option Rat) (avg : List (String × Rat))
    (top_x : Nat) (h1 : 1 ≤ top_x) :
    ∃ th, resolveThreshold th0 avg top_x = some th := by
  cases th0 with
  | some t => exact ⟨some t, rfl⟩
  | none =>
    by_cases hl : avg.length ≥ top_x
    · have hlen : (sortedAbsDesc avg).length = avg.length := by
        unfold sortedAbsDesc
        rw [(List.perm_insertionSort _ _).length_eq, List.length_map]
      have hi : (0 : Int) ≤ (top_x : Int) - 1 := by omega
      have hlt : ((top_x : Int) - 1).toNat < (sortedAbsDesc avg).length := by omega
      have hiloc : ilocRat (sortedAbsDesc avg) ((top_x : Int) - 1) =
          some ((sortedAbsDesc avg).get ⟨((top_x : Int) - 1).toNat, hlt⟩) := by
        unfold ilocRat
        rw [if_pos hi]
        exact List.get?_eq_get hlt
      refine ⟨some ((sortedAbsDesc avg).get ⟨((top_x : Int) - 1).toNat, hlt⟩), ?_⟩
      unfold resolveThreshold
      rw [if_pos hl, hiloc]
    · refine ⟨none, ?_⟩
      unfold resolveThreshold
      rw [if_neg hl]

theorem avgAfterFilter_eq (rows : List GIn) (top_x : Nat) (th0 : Option Rat)
    (th : Option Rat) (hres : resolveThreshold th0 (avgDf rows) top_x = some th) :
    avgAfterFilter rows top_x th0 =
      if thTruthy th then
        some ((avgDf rows).filter (fun p =>
          decide (p.2 ≤ -(th.getD 0) ∨ th.getD 0 ≤ p.2)))
      else some (avgDf rows) := by
  unfold avgAfterFilter
  rw [hres]

theorem keptRows_eq (rows : List GIn) (top_x : Nat) (th0 : Option Rat)
    (avg1 : List (String × Rat)) (h : avgAfterFilter rows top_x th0 = some avg1) :
    keptRows rows top_x th0 =
      some (rows.filter (fun r => (avg1.map (fun p => p.1)).contains r.feature)) := by
  unfold keptRows
  rw [h]

theorem avg2Of_eq (rows : List GIn) (top_x : Nat) (th0 : Option Rat) (th : Option Rat)
    (avg1 : List (String × Rat)) (hres : resolveThreshold th0 (avgDf rows) top_x = some th)
    (h : avgAfterFilter rows top_x th0 = some avg1) :
    avg2Of rows top_x th0 =
      some (if thTruthy th then avg1 ++ [("(...)", 0)] else avg1) := by
  unfold avg2Of
  rw [hres, h]

theorem rawRowsOf_eq (rows : List GIn) (top_x : Nat) (th0 : Option Rat) (th : Option Rat)
    (kept : List GIn) (hres : resolveThreshold th0 (avgDf rows) top_x = some th)
    (h : keptRows rows top_x th0 = some kept) :
    rawRowsOf rows top_x th0 =
      some (if thTruthy th then kept ++ [⟨"(...)", mkRat (-3) 5⟩] else kept) := by
  unfold rawRowsOf
  rw [hres, h]

theorem buildTable_eq (rows : List GIn) (top_x : Nat) (th0 : Option Rat)
    (raw : List GIn) (avg2 : List (String × Rat))
    (hraw : rawRowsOf rows top_x th0 = some raw) (havg2 : avg2Of rows top_x th0 = some avg2) :
    buildTable rows top_x th0 = some (raw.map tagSV ++ avg2.map meanRow) := by
  unfold buildTable
  rw [hraw, havg2]

/-- When every feature survives the filter, line 109 keeps every raw
row. -/
theorem keptRows_full (rows : List GIn) (top_x : Nat) (th0 : Option Rat)
    (h : avgAfterFilter rows top_x th0 = some (avgDf rows)) :
    keptRows rows top_x th0 = some rows := by
  rw [keptRows_eq rows top_x th0 (avgDf rows) h]
  refine congrArg some (List.filter_eq_self.mpr ?_)
  intro r hr
  rw [avgDf_keys]
  exact List.elem_iff.mpr (mem_groupKeys.mpr (List.mem_map_of_mem (fun r => r.feature) hr))

/-- Every feature of the filtered mean series is a feature of the input
frame. -/
theorem avgAfterFilter_feature_mem (rows : List GIn) (top_x : Nat) (th0 : Option Rat)
    (avg1 : List (String × Rat)) (h : avgAfterFilter rows top_x th0 = some avg1)
    {p : String × Rat} (hp : p ∈ avg1) : p.1 ∈ rows.map (fun r => r.feature) := by
  have hsub : p ∈ avgDf rows := by
    unfold avgAfterFilter at h
    rcases hres : resolveThreshold th0 (avgDf rows) top_x with _ | th
    · rw [hres] at h
      exact absurd h (by simp)
    · rw [hres] at h
      dsimp only at h
      by_cases htr : thTruthy th = true
      · rw [if_pos htr] at h
        cases h
        exact List.mem_of_mem_filter hp
      · rw [if_neg htr] at h
        cases h
        exact hp
  have : p.1 ∈ (avgDf rows).map (fun q => q.1) := List.mem_map_of_mem _ hsub
  rw [avgDf_keys] at this
  exact mem_groupKeys.mp this

/-! ### Claim theorems: concrete parts -/

/-- C1: the claim says the local top-K filter of `plot_feat_barplot`
retains exactly the records whose original signed Shapley value is `>=`
the rank-4 magnitude cutoff or `<= -`cutoff, but line 51 of the source
filters on the column `Explanation`, which the local explanation frame
does not have, so the filter raises a `KeyError` instead of retaining
anything: on a 16-row frame with `top_x_feats = 15` the embedded
function aborts with an error. -/
theorem C1_explanation_column_missing :
    (plot_feat_barplot localRows16 (some 15) none).rows = none := by decide

/-- C4 counterexample: for the spec's own worked example (means
`A: 0.5, B: -0.4, C: 0.1, D: 0.05`, `top_x_feats = 2`) the sort order
handed to the renderer is `[A, (...), B]` — the overflow marker is
sorted by its sentinel mean `0` and is not placed last. -/
theorem C4_overflow_not_last :
    sortFeaturesOf gRows 2 none = some ["A", "(...)", "B"] ∧
    (["A", "(...)", "B"].getLast? = some "B" ∧ "B" ≠ "(...)") := by decide

/-- C5 counterexample: `plot_feat_barplot` writes the pruned-events
marker into the caller's display-name map itself (line 41 takes no
copy), so the caller's dict is different after the call. -/
theorem C5_barplot_leaks_into_caller_map :
    (plot_feat_barplot [⟨"f1", mkRat 1 10, none⟩] (some 15) (some [("f1", "F1")])).callerMap
        = some [("f1", "F1"), ("Pruned Events", "Pruned Events")] ∧
    (plot_feat_barplot [⟨"f1", mkRat 1 10, none⟩] (some 15) (some [("f1", "F1")])).callerMap
        ≠ some [("f1", "F1")] := by decide

/-- C6 counterexample: supplying the keys `axis_lims` and `font_size`
named by the claim has no effect — lines 153-154 of the source read the
keys `axis_lim` and `FontSize`, so the chart keeps the default axis
bounds and font size. -/
theorem C6_claimed_keys_ignored :
    (plotGlobalCore [⟨"A", mkRat 1 2⟩] 12 none none
        (some [("axis_lims", PVal.lims [0, 1]), ("font_size", PVal.num 20)])).result.map
        (fun r => r.config) =
      some ⟨PVal.num 280, PVal.num 288, PVal.lims [mkRat (-1) 5, mkRat 3 5], PVal.num 13⟩ ∧
    PVal.lims [mkRat (-1) 5, mkRat 3 5] ≠ PVal.lims [0, 1] ∧
    (PVal.num 13 ≠ PVal.num 20) := by decide

/-- C8 counterexample: feature `C` is present in the input but dropped by
the threshold filter before relabelling, so its missing entry in the
display-name map raises no error, contrary to the claim that a lookup
error occurs whenever any input feature is missing from the map. -/
theorem C8_missing_dropped_feature_no_error :
    "C" ∈ gRows.map (fun r => r.feature) ∧
    dictGet? (augGlobal [("A", "a"), ("B", "b")]) "C" = none ∧
    (plotGlobalCore gRows 2 none (some [("A", "a"), ("B", "b")]) none).result.isSome
      = true := by decide

/-- C9 counterexample: on an empty frame the per-group worker raises no
error — it hands the renderer an empty table with an empty sort order
and the default layout values. -/
theorem C9_empty_input_no_error :
    (plotGlobalCore [] 12 none none none).result =
      some { rows := [], sort_features := [], config := chartConfig none } := by decide

/-- C10: a threshold that resolves to `0.0` — supplied explicitly or
computed as the `top_x_feats`-th largest absolute mean — is falsy in the
two `if threshold:` tests, so nothing is filtered and no overflow entry
is appended: the mean series survives whole, every raw row is kept, and
neither the raw sentinel row nor the overflow mean entry exists. -/
theorem C10_zero_threshold_inactive (rows : List GIn) (top_x : Nat) (th0 : Option Rat)
    (hz : resolveThreshold th0 (avgDf rows) top_x = some (some 0)) :
    avgAfterFilter rows top_x th0 = some (avgDf rows) ∧
    keptRows rows top_x th0 = some rows ∧
    avg2Of rows top_x th0 = some (avgDf rows) ∧
    rawRowsOf rows top_x th0 = some rows := by
  have htr : thTruthy (some 0) = false := by decide
  have hfa : avgAfterFilter rows top_x th0 = some (avgDf rows) := by
    unfold avgAfterFilter
    rw [hz]
    simp [htr]
  have hkept : keptRows rows top_x th0 = some rows := by
    unfold keptRows
    rw [hfa]
    refine congrArg some (List.filter_eq_self.mpr ?_)
    intro r hr
    rw [avgDf_keys]
    exact List.elem_iff.mpr (mem_groupKeys.mpr (List.mem_map_of_mem (fun r => r.feature) hr))
  refine ⟨hfa, hkept, ?_, ?_⟩
  · unfold avg2Of
    rw [hz, hfa]
    simp [htr]
  · unfold rawRowsOf
    rw [hz, hkept]
    simp [htr]

/-- C10 witness: on `zeroRows` with `top_x_feats = 2` the computed
threshold is `0`, everything is kept and no overflow appears. -/
theorem C10_zero_threshold_witness :
    resolveThreshold none (avgDf zeroRows) 2 = some (some 0) ∧
    (avgAfterFilter zeroRows 2 none = some (avgDf zeroRows) ∧
     keptRows zeroRows 2 none = some zeroRows ∧
     avg2Of zeroRows 2 none = some (avgDf zeroRows) ∧
     rawRowsOf zeroRows 2 none = some zeroRows) :=
  ⟨by decide, C10_zero_threshold_inactive zeroRows 2 none (by decide)⟩

/-- C9 amended: the per-group worker does not fail on an empty frame.
With no explicit threshold (and a positive `top_x_feats`) it hands the
renderer an empty long-form table, an empty sort order and the
configured layout values. -/
theorem C9_empty_input_amended (top_x : Nat) (pf : Option Dict) (pp : Option PDict)
    (h1 : 1 ≤ top_x) :
    (plotGlobalCore [] top_x none pf pp).result =
      some { rows := [], sort_features := [], config := chartConfig pp } := by
  have hres : resolveThreshold none (avgDf []) top_x = some none := by
    unfold resolveThreshold avgDf groupKeys distinctKeys
    simp only [List.map_nil, List.length_nil]
    rw [if_neg (by omega)]
  have hfa : avgAfterFilter [] top_x none = some [] := by
    unfold avgAfterFilter
    rw [hres]
    rfl
  have hkept : keptRows [] top_x none = some [] := by
    unfold keptRows
    rw [hfa]
    rfl
  have havg2 : avg2Of [] top_x none = some [] := by
    unfold avg2Of
    rw [hres, hfa]
    rfl
  have hraw : rawRowsOf [] top_x none = some [] := by
    unfold rawRowsOf
    rw [hres, hkept]
    rfl
  have htbl : buildTable [] top_x none = some [] := by
    unfold buildTable
    rw [hraw, havg2]
    rfl
  have hsf : sortFeaturesOf [] top_x none = some [] := by
    unfold sortFeaturesOf sortPairsOf
    rw [havg2]
    rfl
  unfold plotGlobalCore
  rw [htbl, hsf]
  cases hdt : dictTruthy pf <;> simp [hdt, renameLong, renameSort]

/-- C9 amended witness at `top_x_feats = 12` with a nonempty display
map. -/
theorem C9_empty_input_amended_witness :
    (1 : Nat) ≤ 12 ∧
    (plotGlobalCore [] 12 none (some [("A", "a")]) none).result =
      some { rows := [], sort_features := [], config := chartConfig none } :=
  ⟨by decide, C9_empty_input_amended 12 (some [("A", "a")]) none (by decide)⟩

theorem dictInsert_eq_append {d : Dict} {k : String}
    (h : dictGet? d k = none) (v : String) : dictInsert d k v = d ++ [(k, v)] := by
  induction d with
  | nil => rfl
  | cons p rest ih =>
    by_cases hp : p.1 = k
    · simp [dictGet?, List.find?, hp] at h
    · simp only [dictGet?, List.find?] at h
      rw [dictInsert]
      rw [if_neg hp]
      simp only [hp, decide_False] at h
      rw [ih (by simpa [dictGet?] using h)]
      rfl

/-- C5 amended: the per-group worker of `plot_global_feat` deep-copies
the caller's display-name map before adding the marker entries, so the
caller's dict is returned unchanged; `plot_feat_barplot` instead writes
the pruned-events identity entry into the caller's dict itself, so
whenever that key is absent the caller's dict really does change. -/
theorem C5_map_mutation_amended (rows : List GIn) (brows : List FeatRow)
    (top_x : Nat) (btop : Option Nat) (th0 : Option Rat) (pf : Dict)
    (pp : Option PDict) (hne : pf ≠ []) :
    (plotGlobalCore rows top_x th0 (some pf) pp).callerMap = some pf ∧
    (plot_feat_barplot brows btop (some pf)).callerMap = some (augmentLocal pf) ∧
    (dictGet? pf "Pruned Events" = none → augmentLocal pf ≠ pf) := by
  have ht : dictTruthy (some pf) = true := by
    cases pf with
    | nil => exact absurd rfl hne
    | cons p rest => rfl
  refine ⟨rfl, ?_, ?_⟩
  · unfold plot_feat_barplot
    rw [ht]
    rfl
  · intro hget heq
    rw [augmentLocal, dictInsert_eq_append hget] at heq
    have hlen := congrArg List.length heq
    simp at hlen

/-- C5 amended witness: a one-entry display map without the marker keys,
on concrete inputs for both functions. -/
theorem C5_map_mutation_amended_witness :
    ((plotGlobalCore gRows 2 none (some [("f1", "F1")]) none).callerMap
        = some [("f1", "F1")] ∧
     (plot_feat_barplot [⟨"f1", 1, none⟩] (some 15) (some [("f1", "F1")])).callerMap
        = some (augmentLocal [("f1", "F1")]) ∧
     (dictGet? [("f1", "F1")] "Pruned Events" = none →
        augmentLocal [("f1", "F1")] ≠ [("f1", "F1")])) ∧
    dictGet? [("f1", "F1")] "Pruned Events" = none :=
  ⟨C5_map_mutation_amended gRows [⟨"f1", 1, none⟩] 2 (some 15) none
      [("f1", "F1")] none (by decide), by decide⟩

/-- C6 amended: the recognized `plot_parameters` keys are `height`,
`width`, `axis_lim` and `FontSize`, with defaults `280`, `288`,
`[-0.2, 0.6]` and `13`; any other key is ignored, and the per-group
worker always uses exactly these four looked-up values in the chart. -/
theorem C6_param_keys_amended :
    (∀ (pp : PDict) (k : String) (v : PVal),
        k ≠ "height" → k ≠ "width" → k ≠ "axis_lim" → k ≠ "FontSize" →
        chartConfig (some ((k, v) :: pp)) = chartConfig (some pp)) ∧
    (∀ pp : PDict, chartConfig (some pp) =
        { height := pdictGetD pp "height" (PVal.num 280)
          width := pdictGetD pp "width" (PVal.num 288)
          axis_lims := pdictGetD pp "axis_lim" (PVal.lims [mkRat (-1) 5, mkRat 3 5])
          fontsize := pdictGetD pp "FontSize" (PVal.num 13) }) ∧
    (∀ rows top_x th0 pf pp res,
        (plotGlobalCore rows top_x th0 pf pp).result = some res →
        res.config = chartConfig pp) := by
  refine ⟨?_, fun pp => rfl, ?_⟩
  · intro pp k v h1 h2 h3 h4
    unfold chartConfig pdictGetD
    simp [List.find?, h1, h2, h3, h4]
  · intro rows top_x th0 pf pp res hres
    unfold plotGlobalCore at hres
    dsimp only at hres
    split at hres
    · split at hres
      · split at hres
        · cases hres; rfl
        · simp at hres
      · cases hres; rfl
    · simp at hres

/-- C2: when no threshold is supplied and the number of distinct features
is at least `top_x_feats` (with `top_x_feats ≥ 1`), the effective
threshold becomes the `top_x_feats`-th largest absolute per-feature mean
(entry `top_x_feats - 1` of the absolute means sorted descending), and
every feature whose mean lies strictly inside `(-threshold, threshold)`
is dropped from the filtered mean series. -/
theorem C2_threshold_selection (rows : List GIn) (top_x : Nat)
    (h1 : 1 ≤ top_x) (h2 : top_x ≤ (avgDf rows).length) :
    ∃ t, resolveThreshold none (avgDf rows) top_x = some (some t) ∧
      (sortedAbsDesc (avgDf rows)).get? (top_x - 1) = some t ∧
      ∀ avg1, avgAfterFilter rows top_x none = some avg1 →
        ∀ p ∈ avgDf rows, -t < p.2 → p.2 < t →
          p.1 ∉ avg1.map (fun q => q.1) := by
  have hlen : (sortedAbsDesc (avgDf rows)).length = (avgDf rows).length := by
    unfold sortedAbsDesc
    rw [(List.perm_insertionSort _ _).length_eq, List.length_map]
  have hlt : top_x - 1 < (sortedAbsDesc (avgDf rows)).length := by omega
  have hget := List.get?_eq_get hlt
  set t := (sortedAbsDesc (avgDf rows)).get ⟨top_x - 1, hlt⟩ with hts
  have hi : (0 : Int) ≤ (top_x : Int) - 1 := by omega
  have hidx : ((top_x : Int) - 1).toNat = top_x - 1 := by omega
  have hres : resolveThreshold none (avgDf rows) top_x = some (some t) := by
    unfold resolveThreshold
    rw [if_pos h2]
    have hiloc : ilocRat (sortedAbsDesc (avgDf rows)) ((top_x : Int) - 1) = some t := by
      unfold ilocRat
      rw [if_pos hi, hidx]
      exact hget
    rw [hiloc]
  refine ⟨t, hres, hget, ?_⟩
  intro avg1 havg1 p hp hlo hhi
  unfold avgAfterFilter at havg1
  rw [hres] at havg1
  dsimp only at havg1
  by_cases hz : t = 0
  · exfalso
    rw [hz] at hlo hhi
    simp at hlo
    linarith
  · have htr : thTruthy (some t) = true := by simp [thTruthy, hz]
    rw [htr] at havg1
    simp only [if_true] at havg1
    have havg1' : avg1 = (avgDf rows).filter
        (fun p => decide (p.2 ≤ -t ∨ t ≤ p.2)) := by
      cases havg1
      rfl
    intro hmem
    rw [havg1'] at hmem
    obtain ⟨q, hq, hq1⟩ := List.mem_map.mp hmem
    obtain ⟨hqmem, hqpred⟩ := List.mem_filter.mp hq
    have hqp : q = p := by
      refine eq_of_mem_keyed_nodup ?_ hqmem hp hq1
      rw [avgDf_keys]
      exact groupKeys_nodup rows
    rcases of_decide_eq_true hqpred with hle | hge
    · rw [hqp] at hle
      linarith
    · rw [hqp] at hge
      linarith

/-- C2 witness: for the spec's worked example the computed threshold is
`0.4` and the features `C` and `D` are dropped. -/
theorem C2_threshold_selection_witness :
    ((1 : Nat) ≤ 2 ∧ 2 ≤ (avgDf gRows).length ∧
     avgAfterFilter gRows 2 none = some [("A", mkRat 1 2), ("B", mkRat (-2) 5)] ∧
     resolveThreshold none (avgDf gRows) 2 = some (some (mkRat 2 5))) ∧
    (∃ t, resolveThreshold none (avgDf gRows) 2 = some (some t) ∧
      (sortedAbsDesc (avgDf gRows)).get? (2 - 1) = some t ∧
      ∀ avg1, avgAfterFilter gRows 2 none = some avg1 →
        ∀ p ∈ avgDf gRows, -t < p.2 → p.2 < t →
          p.1 ∉ avg1.map (fun q => q.1)) :=
  ⟨by decide, C2_threshold_selection gRows 2 (by decide) (by decide)⟩

/-- C3: the overflow rows are appended exactly when the resolved
threshold is truthy.  When it is, the long-form table contains exactly
one raw `(...)` row with value `-0.6` tagged `Shapley Value` and exactly
one `(...)` row tagged `Mean` with a null value; when it is falsy (in
particular when fewer distinct features than `top_x_feats` exist and no
explicit threshold is given) every raw row is kept and no `(...)` row
exists at all. -/
theorem C3_overflow_iff_truthy_threshold (rows : List GIn) (top_x : Nat)
    (th0 : Option Rat) (hnf : "(...)" ∉ rows.map (fun r => r.feature))
    (th : Option Rat) (hres : resolveThreshold th0 (avgDf rows) top_x = some th)
    (tbl : List LongRow) (htbl : buildTable rows top_x th0 = some tbl) :
    (thTruthy th = true →
        tbl.filter (fun r => decide (r.feature = "(...)" ∧ r.type = "Shapley Value")) =
          [⟨"(...)", some (mkRat (-3) 5), "Shapley Value"⟩] ∧
        tbl.filter (fun r => decide (r.feature = "(...)" ∧ r.type = "Mean")) =
          [⟨"(...)", none, "Mean"⟩]) ∧
    (thTruthy th = false →
        keptRows rows top_x th0 = some rows ∧ ∀ r ∈ tbl, r.feature ≠ "(...)") := by
  have feature_of_rows_ne : ∀ f, f ∈ rows.map (fun r => r.feature) → f ≠ "(...)" :=
    fun f hf he => hnf (he ▸ hf)
  constructor
  · intro htr
    set avgF := (avgDf rows).filter
      (fun p => decide (p.2 ≤ -(th.getD 0) ∨ th.getD 0 ≤ p.2)) with havgF
    have havg1 : avgAfterFilter rows top_x th0 = some avgF := by
      rw [avgAfterFilter_eq rows top_x th0 th hres, if_pos htr]
    set keptF := rows.filter
      (fun r => (avgF.map (fun p => p.1)).contains r.feature) with hkeptF
    have hkept : keptRows rows top_x th0 = some keptF :=
      keptRows_eq rows top_x th0 avgF havg1
    have havg2 : avg2Of rows top_x th0 = some (avgF ++ [("(...)", 0)]) := by
      rw [avg2Of_eq rows top_x th0 th avgF hres havg1, if_pos htr]
    have hraw : rawRowsOf rows top_x th0 =
        some (keptF ++ [⟨"(...)", mkRat (-3) 5⟩]) := by
      rw [rawRowsOf_eq rows top_x th0 th keptF hres hkept, if_pos htr]
    have htbl2 := buildTable_eq rows top_x th0 _ _ hraw havg2
    have htbl3 : tbl = (keptF ++ [(⟨"(...)", mkRat (-3) 5⟩ : GIn)]).map tagSV ++
        (avgF ++ [("(...)", (0 : Rat))]).map meanRow :=
      Option.some.inj (htbl.symm.trans htbl2)
    have hkef : ∀ r ∈ keptF, r.feature ≠ "(...)" := by
      intro r hr
      exact feature_of_rows_ne _
        (List.mem_map_of_mem (fun r => r.feature) (List.mem_of_mem_filter hr))
    have havf : ∀ p ∈ avgF, p.1 ≠ "(...)" := by
      intro p hp
      exact feature_of_rows_ne _ (avgAfterFilter_feature_mem rows top_x th0 avgF havg1 hp)
    constructor
    · have fk : (keptF.map tagSV).filter
          (fun r => decide (r.feature = "(...)" ∧ r.type = "Shapley Value")) = [] := by
        refine List.filter_eq_nil_iff.mpr ?_
        intro b hb
        obtain ⟨r, hr, rfl⟩ := List.mem_map.mp hb
        simp [tagSV, hkef r hr]
      have fmA : (avgF.map meanRow).filter
          (fun r => decide (r.feature = "(...)" ∧ r.type = "Shapley Value")) = [] := by
        refine List.filter_eq_nil_iff.mpr ?_
        intro b hb
        obtain ⟨p, hp, rfl⟩ := List.mem_map.mp hb
        by_cases hc : p.1 = "(...)" <;> simp [meanRow, hc]
      rw [htbl3]
      simp only [List.map_append, List.filter_append, fk, fmA]
      decide
    · have gk : (keptF.map tagSV).filter
          (fun r => decide (r.feature = "(...)" ∧ r.type = "Mean")) = [] := by
        refine List.filter_eq_nil_iff.mpr ?_
        intro b hb
        obtain ⟨r, _, rfl⟩ := List.mem_map.mp hb
        simp [tagSV]
      have gmA : (avgF.map meanRow).filter
          (fun r => decide (r.feature = "(...)" ∧ r.type = "Mean")) = [] := by
        refine List.filter_eq_nil_iff.mpr ?_
        intro b hb
        obtain ⟨p, hp, rfl⟩ := List.mem_map.mp hb
        simp [meanRow, havf p hp]
      rw [htbl3]
      simp only [List.map_append, List.filter_append, gk, gmA]
      decide
  · intro htr
    have hntr : ¬ (thTruthy th = true) := by simp [htr]
    have havg1 : avgAfterFilter rows top_x th0 = some (avgDf rows) := by
      rw [avgAfterFilter_eq rows top_x th0 th hres, if_neg hntr]
    have hkept := keptRows_full rows top_x th0 havg1
    refine ⟨hkept, ?_⟩
    have havg2 : avg2Of rows top_x th0 = some (avgDf rows) := by
      rw [avg2Of_eq rows top_x th0 th (avgDf rows) hres havg1, if_neg hntr]
    have hraw : rawRowsOf rows top_x th0 = some rows := by
      rw [rawRowsOf_eq rows top_x th0 th rows hres hkept, if_neg hntr]
    have htbl2 := buildTable_eq rows top_x th0 _ _ hraw havg2
    have htbl3 : tbl = rows.map tagSV ++ (avgDf rows).map meanRow :=
      Option.some.inj (htbl.symm.trans htbl2)
    rw [htbl3]
    intro r hr
    rcases List.mem_append.mp hr with h | h
    · obtain ⟨x, hx, rfl⟩ := List.mem_map.mp h
      exact feature_of_rows_ne _ (List.mem_map_of_mem (fun r => r.feature) hx)
    · obtain ⟨p, hp, rfl⟩ := List.mem_map.mp h
      have hpmem : p.1 ∈ rows.map (fun r => r.feature) := by
        have hin : p.1 ∈ (avgDf rows).map (fun q => q.1) :=
          List.mem_map_of_mem (fun q => q.1) hp
        rw [avgDf_keys] at hin
        exact mem_groupKeys.mp hin
      have hpne := feature_of_rows_ne _ hpmem
      simp [meanRow, hpne]

/-- C3 witness: the spec's worked example, whose resolved threshold `0.4`
is truthy, produces exactly one raw sentinel row and one null mean row
for the overflow marker. -/
theorem C3_overflow_witness :
    (resolveThreshold none (avgDf gRows) 2 = some (some (mkRat 2 5)) ∧
     buildTable gRows 2 none = some gTable ∧
     thTruthy (some (mkRat 2 5)) = true ∧
     "(...)" ∉ gRows.map (fun r => r.feature)) ∧
    (gTable.filter (fun r => decide (r.feature = "(...)" ∧ r.type = "Shapley Value")) =
        [⟨"(...)", some (mkRat (-3) 5), "Shapley Value"⟩] ∧
     gTable.filter (fun r => decide (r.feature = "(...)" ∧ r.type = "Mean")) =
        [⟨"(...)", none, "Mean"⟩]) :=
  ⟨by decide,
   (C3_overflow_iff_truthy_threshold gRows 2 none (by decide) (some (mkRat 2 5))
      (by decide) gTable (by decide)).1 (by decide)⟩

/-- C6 amended witness: an unrecognized key is ignored and the four
recognized keys resolve against a concrete dict. -/
theorem C6_param_keys_amended_witness :
    chartConfig (some [("other", PVal.num 1), ("height", PVal.num 100)]) =
      chartConfig (some [("height", PVal.num 100)]) ∧
    chartConfig (some [("height", PVal.num 100)]) =
      { height := PVal.num 100, width := PVal.num 288
        axis_lims := PVal.lims [mkRat (-1) 5, mkRat 3 5], fontsize := PVal.num 13 } :=
  ⟨C6_param_keys_amended.1 [("height", PVal.num 100)] "other" (PVal.num 1)
      (by decide) (by decide) (by decide) (by decide), by decide⟩

/-- C4 amended: the display order is the mean series sorted descending by
value with the overflow marker participating under its sentinel mean `0`
— so the marker sits after every feature with a positive mean and before
every feature with a negative mean, not necessarily last. -/
theorem C4_overflow_position_amended (rows : List GIn) (top_x : Nat) (th0 : Option Rat)
    (th : Option Rat) (hres : resolveThreshold th0 (avgDf rows) top_x = some th)
    (htr : thTruthy th = true)
    (sp : List (String × Rat)) (hsp : sortPairsOf rows top_x th0 = some sp) :
    sortFeaturesOf rows top_x th0 = some (sp.map (fun p => p.1)) ∧
    sp.Sorted descByVal ∧
    ("(...)", (0 : Rat)) ∈ sp ∧
    ∀ pre post, sp = pre ++ ("(...)", (0 : Rat)) :: post →
      (∀ p ∈ pre, 0 ≤ p.2) ∧ (∀ p ∈ post, p.2 ≤ 0) := by
  set avgF := (avgDf rows).filter
    (fun p => decide (p.2 ≤ -(th.getD 0) ∨ th.getD 0 ≤ p.2)) with havgF
  have havg1 : avgAfterFilter rows top_x th0 = some avgF := by
    rw [avgAfterFilter_eq rows top_x th0 th hres, if_pos htr]
  have havg2 : avg2Of rows top_x th0 = some (avgF ++ [("(...)", (0 : Rat))]) :=  by
    rw [avg2Of_eq rows top_x th0 th avgF hres havg1, if_pos htr]
  have hsp2 : sortPairsOf rows top_x th0 =
      some (List.insertionSort descByVal (avgF ++ [("(...)", (0 : Rat))])) := by
    unfold sortPairsOf
    rw [havg2]
  have hspe : sp = List.insertionSort descByVal (avgF ++ [("(...)", (0 : Rat))]) :=
    Option.some.inj (hsp.symm.trans hsp2)
  have hsorted : sp.Sorted descByVal := by
    rw [hspe]
    exact List.sorted_insertionSort descByVal _
  refine ⟨?_, hsorted, ?_, ?_⟩
  · unfold sortFeaturesOf
    rw [hsp]
    rfl
  · rw [hspe]
    exact (List.perm_insertionSort descByVal _).mem_iff.mpr (by simp)
  · intro pre post hsplit
    rw [hsplit] at hsorted
    unfold List.Sorted at hsorted
    rw [List.pairwise_append] at hsorted
    obtain ⟨_, hpost, hcross⟩ := hsorted
    constructor
    · intro p hp
      exact hcross p hp _ (List.mem_cons_self _ _)
    · intro p hp
      exact (List.pairwise_cons.mp hpost).1 p hp

/-- C4 amended witness: the spec's worked example, where the marker ends
up in the middle of the sort order. -/
theorem C4_overflow_position_amended_witness :
    (sortPairsOf gRows 2 none =
        some [("A", mkRat 1 2), ("(...)", (0 : Rat)), ("B", mkRat (-2) 5)]) ∧
    (sortFeaturesOf gRows 2 none =
        some ([("A", mkRat 1 2), ("(...)", (0 : Rat)), ("B", mkRat (-2) 5)].map
          (fun p => p.1)) ∧
     ([("A", mkRat 1 2), ("(...)", (0 : Rat)), ("B", mkRat (-2) 5)] :
        List (String × Rat)).Sorted descByVal ∧
     ("(...)", (0 : Rat)) ∈
        ([("A", mkRat 1 2), ("(...)", (0 : Rat)), ("B", mkRat (-2) 5)] :
          List (String × Rat)) ∧
     ∀ pre post,
        ([("A", mkRat 1 2), ("(...)", (0 : Rat)), ("B", mkRat (-2) 5)] :
          List (String × Rat)) = pre ++ ("(...)", (0 : Rat)) :: post →
        (∀ p ∈ pre, 0 ≤ p.2) ∧ (∀ p ∈ post, p.2 ≤ 0)) :=
  ⟨by decide,
   C4_overflow_position_amended gRows 2 none (some (mkRat 2 5)) (by decide) (by decide)
     [("A", mkRat 1 2), ("(...)", (0 : Rat)), ("B", mkRat (-2) 5)] (by decide)⟩

theorem meanRow_feature (p : String × Rat) : (meanRow p).feature = p.1 := by
  unfold meanRow
  split <;> rfl

theorem meanRow_type (p : String × Rat) : (meanRow p).type = "Mean" := by
  unfold meanRow
  split <;> rfl

theorem buildTable_parts (rows : List GIn) (top_x : Nat) (th0 : Option Rat)
    (tbl : List LongRow) (htbl : buildTable rows top_x th0 = some tbl) :
    ∃ raw avg2, rawRowsOf rows top_x th0 = some raw ∧
      avg2Of rows top_x th0 = some avg2 ∧ tbl = raw.map tagSV ++ avg2.map meanRow := by
  unfold buildTable at htbl
  rcases hraw : rawRowsOf rows top_x th0 with _ | raw <;> rw [hraw] at htbl
  · simp at htbl
  · rcases havg2 : avg2Of rows top_x th0 with _ | avg2 <;> rw [havg2] at htbl
    · simp at htbl
    · exact ⟨raw, avg2, rfl, rfl, (Option.some.inj htbl).symm⟩

theorem sortFeatures_sub_table (rows : List GIn) (top_x : Nat) (th0 : Option Rat)
    (tbl : List LongRow) (sf : List String)
    (htbl : buildTable rows top_x th0 = some tbl)
    (hsf : sortFeaturesOf rows top_x th0 = some sf) :
    ∀ f ∈ sf, ∃ r ∈ tbl, r.feature = f := by
  obtain ⟨raw, avg2, _, havg2, htble⟩ := buildTable_parts rows top_x th0 tbl htbl
  have hsf2 : sf = (List.insertionSort descByVal avg2).map (fun p => p.1) := by
    unfold sortFeaturesOf sortPairsOf at hsf
    rw [havg2] at hsf
    exact (Option.some.inj hsf).symm
  intro f hf
  rw [hsf2] at hf
  obtain ⟨p, hp, rfl⟩ := List.mem_map.mp hf
  have hpmem : p ∈ avg2 := (List.perm_insertionSort descByVal avg2).mem_iff.mp hp
  refine ⟨meanRow p, ?_, meanRow_feature p⟩
  rw [htble]
  exact List.mem_append_right _ (List.mem_map_of_mem meanRow hpmem)

theorem renameSort_eq_none_iff (pf : Dict) (sf : List String) :
    renameSort pf sf = none ↔ ∃ f ∈ sf, dictGet? pf f = none := by
  unfold renameSort
  by_cases h : sf.all (fun f => (dictGet? pf f).isSome)
  · rw [if_pos h]
    simp only [List.all_eq_true] at h
    constructor
    · intro hc; exact absurd hc (by simp)
    · rintro ⟨f, hf, hn⟩
      exact absurd (h f hf) (by simp [hn])
  · rw [if_neg h]
    simp only [List.all_eq_true, not_forall] at h
    constructor
    · intro _
      rcases h with ⟨f, hf, hn⟩
      exact ⟨f, hf, by simpa [Option.isSome_iff_ne_none, not_not] using hn⟩
    · intro _; rfl

/-- C8 amended: the relabel lookup error is driven by the features
actually looked up, not by all input features: `plot_feat_barplot` looks
up every input row (relabelling runs before filtering), while the global
worker looks up only the features of the prepared table (the survivors
of the threshold filter plus the overflow marker), and the injected
marker entries themselves can never be missing. -/
theorem C8_lookup_error_amended :
    (∀ (pf : Dict) (rows : List FeatRow),
        renameRows (augmentLocal pf) rows = none ↔
          ∃ r ∈ rows, dictGet? (augmentLocal pf) r.feature = none) ∧
    (∀ pf : Dict, dictGet? (augmentLocal pf) "Pruned Events" ≠ none) ∧
    (∀ pf : Dict, dictGet? (augGlobal pf) "Pruned Events" ≠ none ∧
        dictGet? (augGlobal pf) "(...)" ≠ none) ∧
    (∀ (rows : List GIn) (top_x : Nat) (th0 : Option Rat) (pf : Dict)
        (pp : Option PDict) (tbl : List LongRow) (sf : List String),
        pf ≠ [] → buildTable rows top_x th0 = some tbl →
        sortFeaturesOf rows top_x th0 = some sf →
        ((plotGlobalCore rows top_x th0 (some pf) pp).result = none ↔
          ∃ r ∈ tbl, dictGet? (augGlobal pf) r.feature = none)) := by
  refine ⟨fun pf rows => renameRows_eq_none_iff (augmentLocal pf) rows, ?_, ?_, ?_⟩
  · intro pf
    rw [augmentLocal, dictGet?_insert_self]
    simp
  · intro pf
    constructor
    · rw [augGlobal, dictGet?_insert_ne _ _ _ _ (by decide), dictGet?_insert_self]
      simp
    · rw [augGlobal, dictGet?_insert_self]
      simp
  · intro rows top_x th0 pf pp tbl sf hne htbl hsf
    have ht : dictTruthy (some pf) = true := by
      cases pf with
      | nil => exact absurd rfl hne
      | cons p rest => rfl
    have hsub := sortFeatures_sub_table rows top_x th0 tbl sf htbl hsf
    unfold plotGlobalCore
    dsimp only
    rw [htbl, hsf]
    dsimp only
    rw [if_pos ht]
    simp only [Option.getD]
    rcases hren : renameLong (augGlobal pf) tbl with _ | tbl2
    · rcases hrs : renameSort (augGlobal pf) sf with _ | sf2 <;>
        exact iff_of_true rfl ((renameLong_eq_none_iff _ _).mp hren)
    · rcases hrs : renameSort (augGlobal pf) sf with _ | sf2
      · obtain ⟨f, hf, hnone⟩ := (renameSort_eq_none_iff _ _).mp hrs
        obtain ⟨r, hr, hre⟩ := hsub f hf
        have hcon : renameLong (augGlobal pf) tbl = none :=
          (renameLong_eq_none_iff _ _).mpr ⟨r, hr, by rw [hre]; exact hnone⟩
        rw [hren] at hcon
        exact absurd hcon (by simp)
      · refine iff_of_false (by simp) ?_
        intro hex
        have hcon := (renameLong_eq_none_iff _ _).mpr hex
        rw [hren] at hcon
        exact absurd hcon (by simp)

/-- C8 amended witness: at the worked example, no feature of the
prepared table is missing from the augmented two-entry map, and indeed
no error occurs. -/
theorem C8_lookup_error_amended_witness :
    ((plotGlobalCore gRows 2 none (some [("A", "a"), ("B", "b")]) none).result = none ↔
      ∃ r ∈ gTable, dictGet? (augGlobal [("A", "a"), ("B", "b")]) r.feature = none) :=
  C8_lookup_error_amended.2.2.2 gRows 2 none [("A", "a"), ("B", "b")] none gTable
    ["A", "(...)", "B"] (by decide) (by decide) (by decide)

theorem dictGet?_mem {d : Dict} {k v : String} (h : dictGet? d k = some v) :
    ∃ p ∈ d, p.1 = k := by
  unfold dictGet? at h
  rcases hf : d.find? (fun p => decide (p.1 = k)) with _ | p
  · rw [hf] at h
    simp at h
  · refine ⟨p, List.mem_of_find?_eq_some hf, ?_⟩
    have hp := List.find?_some hf
    simpa using hp

theorem meanRows_count_aux (avg2 : List (String × Rat)) (f : String)
    (hnodup : (avg2.map (fun p => p.1)).Nodup) (hf : f ∈ avg2.map (fun p => p.1)) :
    ((avg2.map meanRow).filter
      (fun r => decide (r.feature = f ∧ r.type = "Mean"))).length = 1 := by
  induction avg2 with
  | nil => simp at hf
  | cons p rest ih =>
    rw [List.map_cons, List.nodup_cons] at hnodup
    rw [List.map_cons] at hf
    rw [List.map_cons, List.filter_cons]
    by_cases hpf : p.1 = f
    · have hpred : decide ((meanRow p).feature = f ∧ (meanRow p).type = "Mean") = true := by
        simp [meanRow_feature, meanRow_type, hpf]
      have hrest : (rest.map meanRow).filter
          (fun r => decide (r.feature = f ∧ r.type = "Mean")) = [] := by
        refine List.filter_eq_nil_iff.mpr ?_
        intro b hb
        obtain ⟨q, hq, rfl⟩ := List.mem_map.mp hb
        have hqf : q.1 ≠ f := by
          intro he
          exact hnodup.1 (hpf ▸ he ▸ List.mem_map_of_mem (fun p => p.1) hq)
        simp [meanRow_feature, meanRow_type, hqf]
      rw [if_pos hpred, hrest]
      rfl
    · have hpred : ¬ (decide ((meanRow p).feature = f ∧ (meanRow p).type = "Mean") = true) := by
        simp [meanRow_feature, meanRow_type, hpf]
      rw [if_neg hpred]
      rcases List.mem_cons.mp hf with he | hmem
      · exact absurd he.symm hpf
      · exact ih hnodup.2 hmem

theorem rawRows_feature_in_avg2 (rows : List GIn) (top_x : Nat) (th0 : Option Rat)
    (raw : List GIn) (avg2 : List (String × Rat))
    (hraw : rawRowsOf rows top_x th0 = some raw)
    (havg2 : avg2Of rows top_x th0 = some avg2) :
    ∀ x ∈ raw, x.feature ∈ avg2.map (fun p => p.1) := by
  rcases hres : resolveThreshold th0 (avgDf rows) top_x with _ | th
  · unfold rawRowsOf at hraw
    rw [hres] at hraw
    simp at hraw
  · rcases hfa : avgAfterFilter rows top_x th0 with _ | avg1
    · unfold rawRowsOf keptRows at hraw
      rw [hres, hfa] at hraw
      simp at hraw
    · have hkept := keptRows_eq rows top_x th0 avg1 hfa
      have hraw2 := rawRowsOf_eq rows top_x th0 th _ hres hkept
      have hrawe := Option.some.inj (hraw.symm.trans hraw2)
      have havg2b := avg2Of_eq rows top_x th0 th avg1 hres hfa
      have havg2e := Option.some.inj (havg2.symm.trans havg2b)
      intro x hx
      by_cases htr : thTruthy th = true
      · rw [if_pos htr] at hrawe havg2e
        rw [hrawe] at hx
        rw [havg2e, List.map_append]
        rcases List.mem_append.mp hx with hx' | hx'
        · obtain ⟨_, hcont⟩ := List.mem_filter.mp hx'
          exact List.mem_append_left _ (List.elem_iff.mp hcont)
        · rw [List.mem_singleton] at hx'
          subst hx'
          refine List.mem_append_right _ ?_
          simp
      · rw [if_neg htr] at hrawe havg2e
        rw [hrawe] at hx
        rw [havg2e]
        obtain ⟨_, hcont⟩ := List.mem_filter.mp hx
        exact List.elem_iff.mp hcont

theorem avgAfterFilter_sublist (rows : List GIn) (top_x : Nat) (th0 : Option Rat)
    (avg1 : List (String × Rat)) (hfa : avgAfterFilter rows top_x th0 = some avg1) :
    List.Sublist avg1 (avgDf rows) := by
  rcases hres : resolveThreshold th0 (avgDf rows) top_x with _ | th
  · unfold avgAfterFilter at hfa
    rw [hres] at hfa
    simp at hfa
  · have heq := avgAfterFilter_eq rows top_x th0 th hres
    rw [hfa] at heq
    by_cases htr : thTruthy th = true
    · rw [if_pos htr] at heq
      obtain rfl := Option.some.inj heq
      exact List.filter_sublist _
    · rw [if_neg htr] at heq
      obtain rfl := Option.some.inj heq
      exact List.Sublist.refl _

theorem avg2_keys_nodup (rows : List GIn) (top_x : Nat) (th0 : Option Rat)
    (hnf : "(...)" ∉ rows.map (fun r => r.feature))
    (avg2 : List (String × Rat)) (havg2 : avg2Of rows top_x th0 = some avg2) :
    (avg2.map (fun p => p.1)).Nodup := by
  rcases hres : resolveThreshold th0 (avgDf rows) top_x with _ | th
  · unfold avg2Of at havg2
    rw [hres] at havg2
    simp at havg2
  · rcases hfa : avgAfterFilter rows top_x th0 with _ | avg1
    · unfold avg2Of at havg2
      rw [hres, hfa] at havg2
      simp at havg2
    · have hsub1 := avgAfterFilter_sublist rows top_x th0 avg1 hfa
      have hk1 : (avg1.map (fun p => p.1)).Nodup :=
        List.Sublist.nodup (hsub1.map _) (by rw [avgDf_keys]; exact groupKeys_nodup rows)
      have hne1 : "(...)" ∉ avg1.map (fun p => p.1) := by
        intro hmem
        obtain ⟨p, hp, hpe⟩ := List.mem_map.mp hmem
        have hpin : p.1 ∈ rows.map (fun r => r.feature) := by
          have hpm : p ∈ avgDf rows := hsub1.subset hp
          have hmm := List.mem_map_of_mem (fun p => p.1) hpm
          rw [avgDf_keys] at hmm
          exact mem_groupKeys.mp hmm
        exact hnf (hpe ▸ hpin)
      have havg2b := avg2Of_eq rows top_x th0 th avg1 hres hfa
      have havg2e := Option.some.inj (havg2.symm.trans havg2b)
      by_cases htr : thTruthy th = true
      · rw [if_pos htr] at havg2e
        rw [havg2e, List.map_append, List.nodup_append]
        refine ⟨hk1, by simp, ?_⟩
        intro a ha hb
        simp only [List.map_cons, List.map_nil, List.mem_singleton] at hb
        exact hne1 (hb ▸ ha)
      · rw [if_neg htr] at havg2e
        rw [havg2e]
        exact hk1

theorem buildTable_meanPaired (rows : List GIn) (top_x : Nat) (th0 : Option Rat)
    (hnf : "(...)" ∉ rows.map (fun r => r.feature))
    (tbl : List LongRow) (htbl : buildTable rows top_x th0 = some tbl) :
    meanPaired tbl := by
  obtain ⟨raw, avg2, hraw, havg2, htble⟩ := buildTable_parts rows top_x th0 tbl htbl
  have hsubavg := rawRows_feature_in_avg2 rows top_x th0 raw avg2 hraw havg2
  have hnodup := avg2_keys_nodup rows top_x th0 hnf avg2 havg2
  intro f hex
  obtain ⟨r, hr, hfe, hty⟩ := hex
  rw [htble] at hr ⊢
  have hrraw : ∃ x ∈ raw, tagSV x = r := by
    rcases List.mem_append.mp hr with h | h
    · exact List.mem_map.mp h
    · obtain ⟨p, hp, rfl⟩ := List.mem_map.mp h
      rw [meanRow_type] at hty
      exact absurd hty (by decide)
  obtain ⟨x, hx, hxe⟩ := hrraw
  have hxf : x.feature = f := by rw [← hfe, ← hxe]; rfl
  have hfk : f ∈ avg2.map (fun p => p.1) := hxf ▸ hsubavg x hx
  rw [List.filter_append]
  have hsv0 : (raw.map tagSV).filter
      (fun r => decide (r.feature = f ∧ r.type = "Mean")) = [] := by
    refine List.filter_eq_nil_iff.mpr ?_
    intro b hb
    obtain ⟨y, _, rfl⟩ := List.mem_map.mp hb
    simp [tagSV]
  rw [hsv0, List.nil_append]
  exact meanRows_count_aux avg2 f hnodup hfk

theorem meanPaired_rename (pf : Dict) (t t2 : List LongRow)
    (hinj : dictInj pf) (hren : renameLong pf t = some t2)
    (hinv : meanPaired t) : meanPaired t2 := by
  unfold renameLong at hren
  by_cases hall : t.all (fun r => (dictGet? pf r.feature).isSome)
  case neg =>
    rw [if_neg hall] at hren
    exact absurd hren (by simp)
  rw [if_pos hall] at hren
  have ht2 : t2 = t.map
      (fun r => { r with feature := (dictGet? pf r.feature).getD r.feature }) :=
    (Option.some.inj hren).symm
  simp only [List.all_eq_true] at hall
  have hL : ∀ a b : LongRow, a ∈ t → b ∈ t →
      (dictGet? pf a.feature).getD a.feature = (dictGet? pf b.feature).getD b.feature →
      a.feature = b.feature := by
    intro a b ha hb heq
    obtain ⟨va, hva⟩ := Option.isSome_iff_exists.mp (hall a ha)
    obtain ⟨vb, hvb⟩ := Option.isSome_iff_exists.mp (hall b hb)
    rw [hva, hvb] at heq
    simp only [Option.getD_some] at heq
    obtain ⟨pa, hpa, hpae⟩ := dictGet?_mem hva
    obtain ⟨pb, hpb, hpbe⟩ := dictGet?_mem hvb
    have hdg : dictGet? pf pa.1 = dictGet? pf pb.1 := by
      rw [hpae, hpbe, hva, hvb, heq]
    have hab := hinj pa hpa pb hpb hdg
    rw [← hpae, ← hpbe]
    exact hab
  intro f hex
  obtain ⟨r2, hr2, hfe, hty⟩ := hex
  rw [ht2] at hr2 ⊢
  obtain ⟨r, hr, rfl⟩ := List.mem_map.mp hr2
  have htyr : r.type = "Shapley Value" := hty
  rw [List.filter_map, List.length_map]
  have hcongr : t.filter ((fun r' => decide (r'.feature = f ∧ r'.type = "Mean")) ∘
      (fun r => { r with feature := (dictGet? pf r.feature).getD r.feature })) =
      t.filter (fun x => decide (x.feature = r.feature ∧ x.type = "Mean")) := by
    apply List.filter_congr
    intro x hx
    simp only [Function.comp]
    rw [decide_eq_decide]
    constructor
    · rintro ⟨h1, h2⟩
      refine ⟨?_, h2⟩
      apply hL x r hx hr
      rw [h1, ← hfe]
    · rintro ⟨h1, h2⟩
      refine ⟨?_, h2⟩
      rw [← hfe]
      show (dictGet? pf x.feature).getD x.feature = _
      rw [h1]
  rw [hcongr]
  exact hinv r.feature ⟨r, hr, rfl, htyr⟩

/-- C7: in the table the per-group worker hands to the renderer, every
feature appearing in a `Shapley Value` row has exactly one `Mean` row —
the overflow marker included (its mean row carries no value).  The
display map, when given, is assumed to assign distinct labels to
distinct keys, and the overflow marker name is assumed not to occur as a
real feature. -/
theorem C7_mean_row_pairing (rows : List GIn) (top_x : Nat) (th0 : Option Rat)
    (pf0 : Option Dict) (pp : Option PDict)
    (hnf : "(...)" ∉ rows.map (fun r => r.feature))
    (hinj : dictInj (augGlobal (pf0.getD [])))
    (res : GlobalResult) (hres : (plotGlobalCore rows top_x th0 pf0 pp).result = some res) :
    meanPaired res.rows := by
  unfold plotGlobalCore at hres
  dsimp only at hres
  rcases htbl : buildTable rows top_x th0 with _ | tbl <;> rw [htbl] at hres
  · rcases hsf : sortFeaturesOf rows top_x th0 with _ | sf <;> rw [hsf] at hres <;>
      simp at hres
  · rcases hsf : sortFeaturesOf rows top_x th0 with _ | sf <;> rw [hsf] at hres
    · simp at hres
    · have hbase := buildTable_meanPaired rows top_x th0 hnf tbl htbl
      dsimp only at hres
      by_cases hdt : dictTruthy pf0 = true
      · rw [if_pos hdt] at hres
        rcases hren : renameLong (augGlobal (pf0.getD [])) tbl with _ | tbl2 <;>
            rw [hren] at hres
        · rcases hrs : renameSort (augGlobal (pf0.getD [])) sf with _ | sf2 <;>
            rw [hrs] at hres <;> simp at hres
        · rcases hrs : renameSort (augGlobal (pf0.getD [])) sf with _ | sf2 <;>
            rw [hrs] at hres
          · simp at hres
          · cases hres
            exact meanPaired_rename _ tbl tbl2 hinj hren hbase
      · rw [if_neg hdt] at hres
        cases hres
        exact hbase

/-- C7 witness: the worked example relabelled through `{A: a, B: b}`;
the rendered table pairs each of `a`, `b` and the overflow marker with
exactly one mean row. -/
theorem C7_mean_row_pairing_witness :
    ((plotGlobalCore gRows 2 none (some [("A", "a"), ("B", "b")]) none).result =
        some gResR ∧
      dictInj (augGlobal ((some [("A", "a"), ("B", "b")]).getD [])) ∧
      "(...)" ∉ gRows.map (fun r => r.feature)) ∧
    meanPaired gResR.rows :=
  ⟨⟨by decide, by decide, by decide⟩,
   C7_mean_row_pairing gRows 2 none (some [("A", "a"), ("B", "b")]) none
     (by decide) (by decide) gResR (by decide)⟩

end Timeshap
